import Mathlib

/-!
Verification of the michelangelo surface-and-sculpture geometry engine
(`src/sculpt.rs`, `src/mesh.rs`).

Shallow embedding conventions:
* The scalar type `N` (`f32` in the source) is modelled as `ℚ`; the claims
  under study do not depend on floating-point rounding.
* `u16` / `u32` index arithmetic is modelled on `ℕ` with explicit `% 65536`
  (resp. truncation on write) exactly where the source casts or performs
  machine arithmetic.
* `usize` arithmetic is modelled on `ℕ`; the only subtractions that can
  underflow in the source (`left_len - 1`, `right_start + right_len - 1 - i`,
  `points.len() - 2`) are guarded in theorems by the hypotheses under which
  the source itself is defined (a Rust underflow panics / wraps, returning no
  value); the external `LinePath` type of the `descartes` crate guarantees at
  least two points, so those regimes are the only meaningful ones.
* `Rc<T>` sharing becomes plain values; "the same shared line" becomes
  structural equality.
* External collaborators (the `descartes` path algebra and the
  `lyon_tessellation` fill engine) are parameters (`PathOps`): every theorem
  quantifies over them, and witnesses instantiate them concretely.  The fill
  engine is modelled by the sequence of `GeometryBuilder` callbacks it makes;
  the builder behaviour itself (`impl GeometryBuilder<FillVertex> for Mesh`)
  is part of `src/mesh.rs` and is embedded faithfully in `runFill`.
-/

namespace Michelangelo

/-- Scalar type `N` of the source (`descartes::N`, an `f32`), modelled as `ℚ`. -/
abbrev N : Type := ℚ

/-- Point type `P2` of the source (2-d point), modelled as a pair of rationals. -/
abbrev P2 : Type := ℚ × ℚ

/-- Path type `descartes::LinePath`: an ordered sequence of 2-d points.  (The real
`LinePath::new` only accepts lists with at least two points; here the raw
data is carried and theorems add the length hypotheses they need.) -/
structure LinePath where
  points : List P2
deriving DecidableEq

/-- Structure `SculptLine` (`sculpt.rs`): a path tagged with a constant elevation. -/
structure SculptLine where
  path : LinePath
  z : N
deriving DecidableEq

/-- Structure `Vertex` of `mesh.rs`: a 3-component position. -/
structure Vertex where
  position : ℚ × ℚ × ℚ
deriving DecidableEq

/-- Structure `Mesh` of `mesh.rs`: vertex buffer plus `u16` index buffer.  Indices are
`ℕ` values; every write site applies the `% 65536` the `u16` type imposes. -/
structure Mesh where
  vertices : List Vertex
  indices : List ℕ
deriving DecidableEq

/-- Constructor `Mesh::new`. -/
def Mesh.new (vertices : List Vertex) (indices : List ℕ) : Mesh :=
  ⟨vertices, indices⟩

/-- Constructor `Mesh::empty`. -/
def Mesh.empty : Mesh := ⟨[], []⟩

/-- Embeds `impl Add for Mesh` (`mesh.rs` lines 62-72): append the vertices, and
append the right indices shifted by `self.vertices.len() as u16` with `u16`
addition (`*i + self_n_vertices as u16`). -/
def Mesh.add (m rhs : Mesh) : Mesh :=
  ⟨m.vertices ++ rhs.vertices,
   m.indices ++ rhs.indices.map (fun i => (i % 65536 + m.vertices.length % 65536) % 65536)⟩

/-- Embeds `impl AddAssign for Mesh` (`mesh.rs` lines 74-84) — also the behaviour of
`impl AddAssign<&Mesh>` (lines 99-109), which pushes the same values. -/
def Mesh.addAssign (m rhs : Mesh) : Mesh :=
  ⟨m.vertices ++ rhs.vertices,
   m.indices ++ rhs.indices.map (fun i => (i % 65536 + m.vertices.length % 65536) % 65536)⟩

/-- Structure `SpannedSurface`: ribbon between two lines. -/
structure SpannedSurface where
  left_line : SculptLine
  right_line : SculptLine
deriving DecidableEq

/-- Constructor `SpannedSurface::new`. -/
def SpannedSurface.new (left_line right_line : SculptLine) : SpannedSurface :=
  ⟨left_line, right_line⟩

/-- Structure `FlatSurface`: a single closed boundary, filled by the tessellator. -/
structure FlatSurface where
  boundary : SculptLine
deriving DecidableEq

/-- Structure `SkeletonSpine`: centerline + width with derived boundary loop and
directional sub-lines. -/
structure SkeletonSpine where
  center : SculptLine
  width : N
  boundary : SculptLine
  left : SculptLine
  front : SculptLine
  right : SculptLine
  back : SculptLine
deriving DecidableEq

/-- Structure `RoofSurface` (`sculpt.rs` lines 160-165). -/
structure RoofSurface where
  spine : SkeletonSpine
  height : N
  gable_depth_front : N
  gable_depth_back : N
deriving DecidableEq

/-- Structure `GableSurface` (`sculpt.rs` lines 167-172). -/
structure GableSurface where
  spine : SkeletonSpine
  height : N
  gable_depth_front : N
  gable_depth_back : N
deriving DecidableEq

/-- The `Surface` enum. -/
inductive Surface where
  | Spanned (s : SpannedSurface)
  | Flat (f : FlatSurface)
  | Roof (r : RoofSurface)
  | Gable (g : GableSurface)
deriving DecidableEq

/-- Type `Sculpture`: an ordered list of surfaces. -/
abbrev Sculpture : Type := List Surface

/-- One callback the fill engine makes into the `GeometryBuilder`
implementation of `Mesh` (`mesh.rs` lines 131-152): either `add_vertex`
(with a 2-d position) or `add_triangle` (with three `u32` vertex ids). -/
inductive FillEvent where
  | addVertex (x y : ℚ)
  | addTriangle (a b c : ℕ)

/-- The `GeometryBuilder<FillVertex> for Mesh` behaviour (`mesh.rs`):
`add_vertex` pushes `[x, y, 0.0]`; `add_triangle` pushes the three ids each
cast `as u16`. -/
def applyFillEvent (m : Mesh) : FillEvent → Mesh
  | .addVertex x y => ⟨m.vertices ++ [⟨(x, y, 0)⟩], m.indices⟩
  | .addTriangle a b c =>
      ⟨m.vertices, m.indices ++ [a % 65536, b % 65536, c % 65536]⟩

/-- Running the tessellator on an empty `Mesh` output: the mesh produced by
a given sequence of builder callbacks. -/
def runFill (events : List FillEvent) : Mesh :=
  events.foldl applyFillEvent Mesh.empty

/-- The external collaborators: the `descartes` path algebra (with its
documented failure modes as `Option`) and the `lyon_tessellation` fill
engine, the latter given by the builder callbacks it makes for a boundary
path.  `endPoint` models `LinePath::end` (`end` is a Lean keyword). -/
structure PathOps where
  shift_orthogonally : LinePath → N → Option LinePath
  concat : LinePath → LinePath → Option LinePath
  subsection : LinePath → N → N → Option LinePath
  length : LinePath → N
  along : LinePath → N → P2
  with_new_start_and_end : LinePath → P2 → P2 → Option LinePath
  start : LinePath → P2
  endPoint : LinePath → P2
  start_direction : LinePath → P2
  end_direction : LinePath → P2
  reverse : LinePath → LinePath
  line_new : List P2 → Option LinePath
  fill : LinePath → List FillEvent

/-- Constructor `SculptLine::new`. -/
def SculptLine.new (path : LinePath) (z : N) : SculptLine := ⟨path, z⟩

/-- Embeds `SculptLine::extrude` (`sculpt.rs` lines 21-32): the upper line is an
identity copy of the path when `out == 0.0`, otherwise the orthogonal offset
(which may fail); elevation is raised by `up`. -/
def SculptLine.extrude (ops : PathOps) (line : SculptLine) (up out : N) :
    Option (SpannedSurface × SculptLine) := do
  let upper_path ← if out = 0 then pure line.path else ops.shift_orthogonally line.path out
  let upper_line : SculptLine := ⟨upper_path, line.z + up⟩
  pure (SpannedSurface.new line upper_line, upper_line)

/-- The body of the `flat_map` closure in `SculptLine::subdivide`
(`sculpt.rs` lines 39-43), with the mutable `start` as explicit state: the
interval end is `start + total_length * (weight / total_weight)`, `start`
advances to it unconditionally, and the sub-line is kept exactly when
`subsection` succeeds. -/
def subdivideStep (ops : PathOps) (l : SculptLine) (total_weight total_length : N) :
    List SculptLine × N → N → List SculptLine × N :=
  fun acc weight =>
    let e := acc.2 + total_length * (weight / total_weight)
    match ops.subsection l.path acc.2 e with
    | some path => (acc.1 ++ [SculptLine.new path l.z], e)
    | none => (acc.1, e)

/-- Embeds `SculptLine::subdivide` (`sculpt.rs` lines 34-45): proportional
partition, folding `subdivideStep` over the weights from `start = 0`. -/
def SculptLine.subdivide (ops : PathOps) (l : SculptLine) (weights : List N) :
    List SculptLine :=
  let total_weight : N := weights.sum
  let total_length : N := ops.length l.path
  (weights.foldl (subdivideStep ops l total_weight total_length)
    (([] : List SculptLine), (0 : N))).1

/-- Embeds `SkeletonSpine::new` (`sculpt.rs` lines 106-127).  `points.last().unwrap()`
and `points[0]` are modelled with defaults (the source panics on an empty
path; `LinePath` always has ≥ 2 points). -/
def SkeletonSpine.new (ops : PathOps) (center : SculptLine) (width : N) :
    Option SkeletonSpine := do
  let left ← ops.shift_orthogonally center.path (-width / 2)
  let right := ops.reverse (← ops.shift_orthogonally center.path (width / 2))
  let back ← ops.line_new [right.points.getLastD (0, 0), left.points.headD (0, 0)]
  let front ← ops.line_new [left.points.getLastD (0, 0), right.points.headD (0, 0)]
  let b1 ← ops.concat left front
  let b2 ← ops.concat b1 right
  let b3 ← ops.concat b2 back
  pure
    { width := width
      boundary := SculptLine.new b3 center.z
      left := SculptLine.new left center.z
      front := SculptLine.new front center.z
      right := SculptLine.new right center.z
      back := SculptLine.new back center.z
      center := center }

/-- Embeds `SkeletonSpine::extrude` (`sculpt.rs` lines 129-147). -/
def SkeletonSpine.extrude (ops : PathOps) (s : SkeletonSpine) (up widen_by extend_by : N) :
    Option (SpannedSurface × SkeletonSpine) := do
  let new_center ←
    if extend_by = 0 then
      if up = 0 then
        pure s.center
      else
        pure (SculptLine.new s.center.path (s.center.z + up))
    else do
      let p := s.center.path
      let q ← ops.with_new_start_and_end p
        (ops.start p - extend_by • ops.start_direction p)
        (ops.endPoint p + extend_by • ops.end_direction p)
      pure (SculptLine.new q (s.center.z + up))
  let new_spine ← SkeletonSpine.new ops new_center (s.width + widen_by)
  pure (SpannedSurface.new s.boundary new_spine.boundary, new_spine)

/-- Embeds `SkeletonSpine::roof`. -/
def SkeletonSpine.roof (s : SkeletonSpine) (height gable_depth_front gable_depth_back : N) :
    RoofSurface × GableSurface :=
  (⟨s, height, gable_depth_front, gable_depth_back⟩,
   ⟨s, height, gable_depth_front, gable_depth_back⟩)

/-- Embeds `to_vertex` (`sculpt.rs` lines 207-211). -/
def to_vertex (point : P2) (z : N) : Vertex :=
  ⟨(point.1, point.2, z)⟩

/-- Embeds `strip_indices` (`sculpt.rs` lines 213-245).  All `u16` casts and `u16`
arithmetic (`left_i + 1`, `right_i + 1`, `(right_start_i + right_len) as u16
- 1`) are rendered as explicit `% 65536`; `u16 - 1` is wrapping, i.e.
`+ 65535` mod `65536`.  The `usize` subtraction in the reverse branch is ℕ
truncated subtraction; theorems about that branch carry the no-underflow
hypothesis under which the source is defined. -/
def strip_indices (left_start_i left_len right_start_i right_len : ℕ)
    (reverse_right : Bool) : List ℕ :=
  if reverse_right then
    (List.range (left_len - 1)).flatMap (fun i =>
      let left_i := (i + left_start_i) % 65536
      let right_i := (right_start_i + right_len - 1 - i) % 65536
      [left_i,
       max right_i (right_start_i % 65536),
       (left_i + 1) % 65536,
       (left_i + 1) % 65536,
       max right_i (right_start_i % 65536),
       max ((right_i + 1) % 65536) (right_start_i % 65536)])
  else
    (List.range (left_len - 1)).flatMap (fun i =>
      let left_i := (i + left_start_i) % 65536
      let right_i := (i + right_start_i) % 65536
      [left_i,
       min right_i (((right_start_i + right_len) % 65536 + 65535) % 65536),
       (left_i + 1) % 65536,
       (left_i + 1) % 65536,
       min right_i (((right_start_i + right_len) % 65536 + 65535) % 65536),
       min ((right_i + 1) % 65536) (((right_start_i + right_len) % 65536 + 65535) % 65536)])

/-- The ridge point list of the Roof branch (`sculpt.rs` lines 327-330):
sample at `gable_depth_back`, keep the interior points
(`points[1..=(len - 2)]`), sample at `length - gable_depth_front`. -/
def ridgePoints (ops : PathOps) (r : RoofSurface) : List P2 :=
  let c := r.spine.center.path
  [ops.along c r.gable_depth_back]
    ++ ((c.points.drop 1).take (c.points.length - 2))
    ++ [ops.along c (ops.length c - r.gable_depth_front)]

/-- The mesh contributed by one surface: the body of the per-variant `match`
in `Sculpture::to_mesh` (`sculpt.rs` lines 259-362), i.e. the right operand
of each `mesh += ...`. -/
def surfaceMesh (ops : PathOps) : Surface → Mesh
  | .Spanned s =>
      let left_points := s.left_line.path.points
      let right_points := s.right_line.path.points
      let vertices :=
        left_points.map (fun p => to_vertex p s.left_line.z)
          ++ right_points.map (fun p => to_vertex p s.right_line.z)
      let indices :=
        strip_indices 0 left_points.length left_points.length right_points.length false
      Mesh.new vertices indices
  | .Flat f =>
      let output := runFill (ops.fill f.boundary.path)
      ⟨output.vertices.map (fun v => ⟨(v.position.1, v.position.2.1, f.boundary.z)⟩),
       output.indices⟩
  | .Roof r =>
      let ridge_points := ridgePoints ops r
      let left_points := r.spine.left.path.points
      let right_points := r.spine.right.path.points
      let vertices :=
        left_points.map (fun p => to_vertex p r.spine.center.z)
          ++ right_points.reverse.map (fun p => to_vertex p r.spine.center.z)
          ++ ridge_points.map (fun p => to_vertex p (r.spine.center.z + r.height))
      let indices :=
        strip_indices 0 left_points.length
            (left_points.length + right_points.length) ridge_points.length false
          ++ strip_indices left_points.length right_points.length
              (left_points.length + right_points.length) ridge_points.length false
      Mesh.new vertices indices
  | .Gable g =>
      let c := g.spine.center.path
      let center_back := ops.along c g.gable_depth_back
      let center_front := ops.along c (ops.length c - g.gable_depth_front)
      let left_points := g.spine.left.path.points
      let right_points := g.spine.right.path.points
      let low_z := g.spine.center.z
      let high_z := low_z + g.height
      Mesh.new
        [to_vertex (left_points.headD (0, 0)) low_z,
         to_vertex (right_points.getLastD (0, 0)) low_z,
         to_vertex center_back high_z,
         to_vertex (left_points.getLastD (0, 0)) low_z,
         to_vertex (right_points.headD (0, 0)) low_z,
         to_vertex center_front high_z]
        [0, 1, 2, 3, 4, 5]

/-- Embeds `Sculpture::to_mesh` (`sculpt.rs` lines 256-366): fold `mesh += ...`
over the surfaces in insertion order, starting from `Mesh::empty()`. -/
def Sculpture.to_mesh (ops : PathOps) (s : Sculpture) : Mesh :=
  s.foldl (fun mesh surface => mesh.addAssign (surfaceMesh ops surface)) Mesh.empty

/-- The right-side entries of a `strip_indices` output: the code emits six
indices per step, of which positions 1, 4 and 5 are the right-side ones
(`right_i`, `right_i`, `right_i + 1`, each clamped). -/
def right_slots : List ℕ → List ℕ
  | _ :: b :: _ :: _ :: e :: g :: t => b :: e :: g :: right_slots t
  | _ => []

/-- Apply a function to the right-side entries (positions 1, 4, 5 of each
six-entry step) of a `strip_indices` output, leaving left entries alone. -/
def map_right_slots (f : ℕ → ℕ) : List ℕ → List ℕ
  | a :: b :: c :: d :: e :: g :: t =>
      a :: f b :: c :: d :: f e :: f g :: map_right_slots f t
  | l => l

/-- Mirror an index inside the right range `[rs, rs + rl)`:
`rs + i ↦ rs + (rl - 1) - i`.  Used to state what "the right-side
correspondence exactly reversed" means for a forward strip output. -/
def mirror_right (rs rl j : ℕ) : ℕ :=
  if rs ≤ j ∧ j < rs + rl then rs + (rl - 1) - (j - rs) else j

/-- The hypotheses under which each `Sculpture::to_mesh` branch indexes and
iterates without panicking: every referenced line path is non-empty, and a
roof's center path has the ≥ 2 points every real `descartes::LinePath` has
(the Roof branch slices `points[1..=(len - 2)]`). -/
def Surface.pathsOk : Surface → Prop
  | .Spanned s =>
      1 ≤ s.left_line.path.points.length ∧ 1 ≤ s.right_line.path.points.length
  | .Flat f => 1 ≤ f.boundary.path.points.length
  | .Roof r =>
      1 ≤ r.spine.left.path.points.length ∧ 1 ≤ r.spine.right.path.points.length
        ∧ 2 ≤ r.spine.center.path.points.length
  | .Gable g =>
      1 ≤ g.spine.left.path.points.length ∧ 1 ≤ g.spine.right.path.points.length

/-- The number of vertices each surface variant actually contributes to
`Sculpture::to_mesh`, read off the vertex buffers the source builds:
spanned `len(left) + len(right)`; flat as produced by the fill engine; roof
`len(left) + len(right) + len(ridge)`; gable 6. -/
def surface_vertex_count (ops : PathOps) : Surface → ℕ
  | .Spanned s =>
      s.left_line.path.points.length + s.right_line.path.points.length
  | .Flat f => (runFill (ops.fill f.boundary.path)).vertices.length
  | .Roof r =>
      r.spine.left.path.points.length + r.spine.right.path.points.length
        + (ridgePoints ops r).length
  | .Gable _ => 6

/-- The per-surface vertex contribution as the spec's words state it
("roof: `len(boundary)+len(ridge)`"): identical to `surface_vertex_count`
except that the roof case counts the spine's `boundary` points instead of
the `left`/`right` points the code actually uses. -/
def spec_surface_vertex_count (ops : PathOps) : Surface → ℕ
  | .Spanned s =>
      s.left_line.path.points.length + s.right_line.path.points.length
  | .Flat f => (runFill (ops.fill f.boundary.path)).vertices.length
  | .Roof r =>
      r.spine.boundary.path.points.length + (ridgePoints ops r).length
  | .Gable _ => 6

/-- The arc-length position at which the `i`-th `subdivide` interval starts:
the accumulated `start` after `i` steps of
`start += total_length * (weight / total_weight)`. -/
def subdivideStart (ops : PathOps) (l : SculptLine) (weights : List N) (i : ℕ) : N :=
  ops.length l.path * ((weights.take i).sum / weights.sum)

/-- A trivial instantiation of the external collaborators, used by concrete
counterexamples and witnesses: every fallible operation fails, sampling
returns the origin, and the fill engine emits nothing. -/
def opsZero : PathOps where
  shift_orthogonally := fun _ _ => none
  concat := fun _ _ => none
  subsection := fun _ _ _ => none
  length := fun _ => 0
  along := fun _ _ => (0, 0)
  with_new_start_and_end := fun _ _ _ => none
  start := fun _ => (0, 0)
  endPoint := fun _ => (0, 0)
  start_direction := fun _ => (0, 0)
  end_direction := fun _ => (0, 0)
  reverse := fun p => ⟨p.points.reverse⟩
  line_new := fun _ => none
  fill := fun _ => []

/-- An instantiation of the external collaborators in which every fallible
operation succeeds with a fixed single-point path; used to build witnesses
where constructors must return `some`. -/
def opsTiny : PathOps where
  shift_orthogonally := fun _ _ => some ⟨[(0, 0)]⟩
  concat := fun _ _ => some ⟨[(0, 0)]⟩
  subsection := fun p _ _ => some p
  length := fun _ => 10
  along := fun _ _ => (0, 0)
  with_new_start_and_end := fun p _ _ => some p
  start := fun p => p.points.headD (0, 0)
  endPoint := fun p => p.points.getLastD (0, 0)
  start_direction := fun _ => (1, 0)
  end_direction := fun _ => (1, 0)
  reverse := fun p => ⟨p.points.reverse⟩
  line_new := fun _ => some ⟨[(0, 0)]⟩
  fill := fun _ => []

/-- A concrete spine of the shape `SkeletonSpine::new` produces for a
straight ten-unit center path of width 4: `left`/`right` are the two offset
lines (`right` reversed), `front`/`back` the connector segments, and
`boundary` their concatenation `left → front → right → back` with the shared
endpoints deduplicated (5 points for the 2-point offsets). -/
def spineEx : SkeletonSpine where
  center := ⟨⟨[(0, 0), (10, 0)]⟩, 0⟩
  width := 4
  boundary := ⟨⟨[(0, -2), (10, -2), (10, 2), (0, 2), (0, -2)]⟩, 0⟩
  left := ⟨⟨[(0, -2), (10, -2)]⟩, 0⟩
  front := ⟨⟨[(10, -2), (10, 2)]⟩, 0⟩
  right := ⟨⟨[(10, 2), (0, 2)]⟩, 0⟩
  back := ⟨⟨[(0, 2), (0, -2)]⟩, 0⟩

/-- A roof over `spineEx` with height 3 and gable depths 1. -/
def roofEx : RoofSurface := ⟨spineEx, 3, 1, 1⟩

/-- A gable over `spineEx` with height 3 and gable depths 1. -/
def gableEx : GableSurface := ⟨spineEx, 3, 1, 1⟩

/-- A degenerate one-point spine (every field the same single-point line),
of the shape `SkeletonSpine::new` yields under the `opsTiny` collaborators. -/
def spineTiny : SkeletonSpine where
  center := ⟨⟨[(0, 0)]⟩, 0⟩
  width := 2
  boundary := ⟨⟨[(0, 0)]⟩, 0⟩
  left := ⟨⟨[(0, 0)]⟩, 0⟩
  front := ⟨⟨[(0, 0)]⟩, 0⟩
  right := ⟨⟨[(0, 0)]⟩, 0⟩
  back := ⟨⟨[(0, 0)]⟩, 0⟩

/-- The spine `SkeletonSpine::extrude(up = 1, widen_by = 2, extend_by = 0)`
produces from `spineTiny` under the `opsTiny` collaborators. -/
def spineTinyUp : SkeletonSpine where
  center := ⟨⟨[(0, 0)]⟩, 1⟩
  width := 4
  boundary := ⟨⟨[(0, 0)]⟩, 1⟩
  left := ⟨⟨[(0, 0)]⟩, 1⟩
  front := ⟨⟨[(0, 0)]⟩, 1⟩
  right := ⟨⟨[(0, 0)]⟩, 1⟩
  back := ⟨⟨[(0, 0)]⟩, 1⟩

/-- A concrete spanned surface: two parallel two-point lines. -/
def spanEx : SpannedSurface :=
  ⟨⟨⟨[(0, 0), (1, 0)]⟩, 0⟩, ⟨⟨[(0, 1), (1, 1)]⟩, 1⟩⟩

/-- A mesh whose vertex count is exactly `2^16`, at which the `u16` index
shift of `+=` wraps. -/
def meshBig : Mesh := ⟨List.replicate 65536 ⟨(0, 0, 0)⟩, []⟩

/-- A one-vertex mesh with a single index 0. -/
def meshOne : Mesh := ⟨[⟨(0, 0, 0)⟩], [0]⟩

/-! ### Helper lemmas -/

theorem list_flatMap_congr {α β : Type} {l : List α} {f g : α → List β}
    (h : ∀ a ∈ l, f a = g a) : l.flatMap f = l.flatMap g := by
  induction l with
  | nil => rfl
  | cons a t ih =>
      rw [List.flatMap_cons, List.flatMap_cons, h a (by simp),
        ih (fun x hx => h x (by simp [hx]))]

theorem flatMap_six_length {α : Type} (L : List α) (f : α → List ℕ)
    (h : ∀ a ∈ L, (f a).length = 6) : (L.flatMap f).length = 6 * L.length := by
  induction L with
  | nil => simp
  | cons a t ih =>
      rw [List.flatMap_cons, List.length_append, h a (by simp),
        ih (fun x hx => h x (by simp [hx])), List.length_cons]
      ring

theorem strip_indices_length (ls ll rs rl : ℕ) (rev : Bool) :
    (strip_indices ls ll rs rl rev).length = 6 * (ll - 1) := by
  cases rev <;>
    · rw [strip_indices]
      simp only [Bool.false_eq_true, Bool.true_eq_false, if_true, if_false]
      refine (flatMap_six_length _ _ ?_).trans (by rw [List.length_range])
      exact fun a _ => rfl

theorem right_slots_append6 (xs ys : List ℕ) (h : xs.length = 6) :
    right_slots (xs ++ ys) = right_slots xs ++ right_slots ys := by
  rcases xs with _ | ⟨a, _ | ⟨b, _ | ⟨c, _ | ⟨d, _ | ⟨e, _ | ⟨g, _ | ⟨x, t⟩⟩⟩⟩⟩⟩⟩ <;>
    simp_all [right_slots]

theorem right_slots_flatMap {α : Type} (L : List α) (f : α → List ℕ)
    (h : ∀ a, (f a).length = 6) :
    right_slots (L.flatMap f) = L.flatMap (fun a => right_slots (f a)) := by
  induction L with
  | nil => simp [right_slots]
  | cons a t ih =>
      rw [List.flatMap_cons, List.flatMap_cons, right_slots_append6 _ _ (h a), ih]

theorem strip_fwd_right_bound (ls ll rs rl : ℕ) (hrl : 1 ≤ rl)
    (hra : rs + rl ≤ 65535) (hlb : ll + rs ≤ 65536) :
    ∀ j ∈ right_slots (strip_indices ls ll rs rl false), rs ≤ j ∧ j ≤ rs + rl - 1 := by
  intro j hj
  rw [strip_indices, if_neg (by simp)] at hj
  rw [right_slots_flatMap] at hj
  case h => exact fun i => rfl
  rw [List.mem_flatMap] at hj
  obtain ⟨i, hi, hj⟩ := hj
  rw [List.mem_range] at hi
  simp only [right_slots, List.mem_cons, List.not_mem_nil, or_false] at hj
  rcases hj with h | h | h <;> omega

theorem strip_rev_right_bound (ls ll rs rl : ℕ) (hrl : 1 ≤ rl)
    (hnou : ll ≤ rs + rl + 1) (hra : rs + rl ≤ 65535) :
    ∀ j ∈ right_slots (strip_indices ls ll rs rl true), rs ≤ j ∧ j ≤ rs + rl := by
  intro j hj
  rw [strip_indices, if_pos rfl] at hj
  rw [right_slots_flatMap] at hj
  case h => exact fun i => rfl
  rw [List.mem_flatMap] at hj
  obtain ⟨i, hi, hj⟩ := hj
  rw [List.mem_range] at hi
  simp only [right_slots, List.mem_cons, List.not_mem_nil, or_false] at hj
  rcases hj with h | h | h <;> omega

theorem strip_rev_closed_form (ls ll rs rl : ℕ) (heq : ll = rl) (hrl : 1 ≤ rl)
    (hl : ls + ll ≤ 65535) (hr : rs + rl ≤ 65535) :
    strip_indices ls ll rs rl true
      = (List.range (ll - 1)).flatMap (fun i =>
          [ls + i, rs + rl - 1 - i, ls + i + 1, ls + i + 1, rs + rl - 1 - i, rs + rl - i]) := by
  rw [strip_indices, if_pos rfl]
  apply list_flatMap_congr
  intro i hi
  rw [List.mem_range] at hi
  simp only [List.cons.injEq, and_true]
  omega

/-! ### Claim C7: zero-offset extrusion is an identity copy -/

/-- Claim C7: for every line and every behaviour of the external
path-offset operation, `SculptLine::extrude(line, 0, 0)` returns `Some`,
and the new line has the original path (same points) and the original
elevation; the orthogonal-offset operation is never consulted (the result
is the same for every `shift_orthogonally` oracle, including the one that
always fails). -/
theorem extrude_zero_offset_identity (ops : PathOps) (line : SculptLine) :
    SculptLine.extrude ops line 0 0
      = some (SpannedSurface.new line ⟨line.path, line.z⟩, ⟨line.path, line.z⟩) := by
  simp [SculptLine.extrude]

/-! ### Claim C5: strip mapping determinism -/

/-- Claim C5 (amended): `strip_indices(0, 4, 4, 4, false)` produces the
canonical zig-zag `[0,4,1, 1,4,5, 1,5,2, 2,5,6, 2,6,3, 3,6,7]`; and in
reverse mode on equal-length in-range inputs, step `i` emits
`[l, R, l+1, l+1, R, R+1]` with `R = right_start + right_len - 1 - i`: the
two primary slots pair left index `i` with the mirrored right index `R`,
but the sixth slot of each step is `R + 1` (at step 0 this is
`right_start + right_len`, one past the range) — not the mirror `R - 1` of
the forward pattern, so the output is not the forward output with the
right side exactly reversed. -/
theorem strip_mapping_determinism :
    strip_indices 0 4 4 4 false = [0, 4, 1, 1, 4, 5, 1, 5, 2, 2, 5, 6, 2, 6, 3, 3, 6, 7]
    ∧ ∀ ls ll rs rl : ℕ, ll = rl → 1 ≤ rl → ls + ll ≤ 65535 → rs + rl ≤ 65535 →
        strip_indices ls ll rs rl true
          = (List.range (ll - 1)).flatMap (fun i =>
              [ls + i, rs + rl - 1 - i, ls + i + 1, ls + i + 1,
               rs + rl - 1 - i, rs + rl - i]) :=
  ⟨by decide, fun ls ll rs rl heq hrl hl hr => strip_rev_closed_form ls ll rs rl heq hrl hl hr⟩

/-- Claim C5 counterexample: on the equal-length ranges `left = [0, 2)`,
`right = [2, 4)`, the reverse-mode output is not the forward-mode output
with every right-side entry mirrored within the right range: reverse mode
yields `[0,3,1,1,3,4]` (the final `4` is even outside the right range),
mirroring the forward output `[0,2,1,1,2,3]` yields `[0,3,1,1,3,2]`. -/
theorem strip_reverse_not_exact_mirror :
    strip_indices 0 2 2 2 true
      ≠ map_right_slots (mirror_right 2 2) (strip_indices 0 2 2 2 false) := by
  decide

/-- Witness for C5's amended theorem at `ls = 0, ll = 2, rs = 2, rl = 2`. -/
theorem strip_mapping_determinism_witness :
    strip_indices 0 2 2 2 true = [0 + 0, 2 + 2 - 1 - 0, 0 + 0 + 1, 0 + 0 + 1,
      2 + 2 - 1 - 0, 2 + 2 - 0] := by
  rw [strip_mapping_determinism.2 0 2 2 2 rfl (by norm_num) (by norm_num) (by norm_num)]
  decide

/-! ### Claim C2: right-index clamping -/

/-- Claim C2 (amended): in forward mode (with inputs small enough that the
`u16` casts do not wrap) every right-side index emitted by `strip_indices`
lies in `[right_start, right_start + right_len - 1]`; in reverse mode (with
`left_len ≤ right_start + right_len + 1` so the mirrored-index subtraction
does not underflow) the `max`-clamp enforces only the lower bound, and the
right-side indices lie in `[right_start, right_start + right_len]` — the
top of the claimed range can be exceeded by one (by the sixth slot of step
0), so out-of-range right indices are possible in reverse mode. -/
theorem strip_right_index_ranges :
    (∀ ls ll rs rl : ℕ, 1 ≤ rl → rs + rl ≤ 65535 → ll + rs ≤ 65536 →
      ∀ j ∈ right_slots (strip_indices ls ll rs rl false), rs ≤ j ∧ j ≤ rs + rl - 1)
    ∧ (∀ ls ll rs rl : ℕ, 1 ≤ rl → ll ≤ rs + rl + 1 → rs + rl ≤ 65535 →
      ∀ j ∈ right_slots (strip_indices ls ll rs rl true), rs ≤ j ∧ j ≤ rs + rl) :=
  ⟨fun ls ll rs rl h1 h2 h3 => strip_fwd_right_bound ls ll rs rl h1 h2 h3,
   fun ls ll rs rl h1 h2 h3 => strip_rev_right_bound ls ll rs rl h1 h2 h3⟩

/-- Claim C2 counterexample: `strip_indices(0, 2, 2, 1, true)` — with
`left_len = 2 ≥ 1` and `right_len = 1 ≥ 1` — emits the right-side index 3,
which is outside `[right_start, right_start + right_len - 1] = [2, 2]`. -/
theorem strip_right_index_out_of_range :
    3 ∈ right_slots (strip_indices 0 2 2 1 true) ∧ ¬ (3 ≤ 2 + 1 - 1) := by
  decide

/-- Witness for C2's amended theorem: the right-side index 4 emitted by
`strip_indices(0, 2, 2, 2, true)` satisfies the amended (widened) bound
`2 ≤ 4 ≤ 2 + 2`. -/
theorem strip_right_index_ranges_witness :
    4 ∈ right_slots (strip_indices 0 2 2 2 true) ∧ 2 ≤ 4 ∧ 4 ≤ 2 + 2 :=
  ⟨by decide,
   strip_right_index_ranges.2 0 2 2 2 (by norm_num) (by norm_num) (by norm_num) 4 (by decide)⟩

theorem strip_entry_lt (ls ll rs rl : ℕ) (rev : Bool) :
    ∀ j ∈ strip_indices ls ll rs rl rev, j < 65536 := by
  intro j hj
  cases rev <;>
  · rw [strip_indices] at hj
    simp only [Bool.false_eq_true, Bool.true_eq_false, if_true, if_false,
      List.mem_flatMap] at hj
    obtain ⟨i, _, hj⟩ := hj
    simp only [List.mem_cons, List.not_mem_nil, or_false] at hj
    rcases hj with h | h | h | h | h | h <;> omega

/-- For a one-surface sculpture whose surface emits only `u16`-sized
indices, the `+= Mesh::empty()` shift is the identity. -/
theorem to_mesh_singleton_indices (ops : PathOps) (s : Surface)
    (h : ∀ j ∈ (surfaceMesh ops s).indices, j < 65536) :
    (Sculpture.to_mesh ops [s]).indices = (surfaceMesh ops s).indices := by
  show (Mesh.addAssign Mesh.empty (surfaceMesh ops s)).indices = _
  simp only [Mesh.addAssign, Mesh.empty, List.length_nil, List.nil_append]
  refine (List.map_congr_left (g := id) ?_).trans (List.map_id _)
  intro i hi
  have := h i hi
  simp only [id]
  omega

/-! ### Claim C3: the Roof branch's two strips -/

/-- Claim C3 counterexample: on a concrete roof (2-point left, right and
center paths, so `ll = rl = 2`, ridge length 2), the indices emitted by
`Sculpture::to_mesh` are not `strip_indices(0, 2, 4, 2, false) ++
strip_indices(2, 2, 4, 2, true)`: the second strip is generated with
`reverse_right = false`, not `true` as claimed. -/
theorem roof_second_strip_not_reversed :
    (Sculpture.to_mesh opsZero [Surface.Roof roofEx]).indices
      ≠ strip_indices 0 2 (2 + 2) 2 false ++ strip_indices 2 2 (2 + 2) 2 true := by
  decide

/-- Claim C3 (amended): the Roof branch of `Sculpture::to_mesh` generates
its two triangle strips (boundary-left-half-to-ridge and
boundary-right-half-to-ridge) with the shared routine `strip_indices`, but
passes `reverse_right = false` for **both** strips (the right offset line is
already stored reversed in the vertex buffer). -/
theorem roof_two_strips (ops : PathOps) (r : RoofSurface) :
    (Sculpture.to_mesh ops [Surface.Roof r]).indices
      = strip_indices 0 r.spine.left.path.points.length
          (r.spine.left.path.points.length + r.spine.right.path.points.length)
          (ridgePoints ops r).length false
        ++ strip_indices r.spine.left.path.points.length r.spine.right.path.points.length
          (r.spine.left.path.points.length + r.spine.right.path.points.length)
          (ridgePoints ops r).length false := by
  have hmem : (surfaceMesh ops (Surface.Roof r)).indices
      = strip_indices 0 r.spine.left.path.points.length
          (r.spine.left.path.points.length + r.spine.right.path.points.length)
          (ridgePoints ops r).length false
        ++ strip_indices r.spine.left.path.points.length r.spine.right.path.points.length
          (r.spine.left.path.points.length + r.spine.right.path.points.length)
          (ridgePoints ops r).length false := rfl
  rw [to_mesh_singleton_indices, hmem]
  intro j hj
  rw [hmem, List.mem_append] at hj
  rcases hj with h | h
  exacts [strip_entry_lt _ _ _ _ _ j h, strip_entry_lt _ _ _ _ _ j h]

/-! ### Claim C4: vertex-count conservation -/

theorem addAssign_vertices_length (m x : Mesh) :
    (m.addAssign x).vertices.length = m.vertices.length + x.vertices.length := by
  simp [Mesh.addAssign]

theorem surfaceMesh_vertices_length (ops : PathOps) (s : Surface) :
    (surfaceMesh ops s).vertices.length = surface_vertex_count ops s := by
  cases s <;> simp [surfaceMesh, surface_vertex_count, Mesh.new] <;> omega

theorem to_mesh_vertices_fold (ops : PathOps) (l : List Surface) (m : Mesh) :
    (l.foldl (fun mesh surface => mesh.addAssign (surfaceMesh ops surface)) m).vertices.length
      = m.vertices.length + (l.map (surface_vertex_count ops)).sum := by
  induction l generalizing m with
  | nil => simp
  | cons a t ih =>
      rw [List.foldl_cons, ih, addAssign_vertices_length, surfaceMesh_vertices_length,
        List.map_cons, List.sum_cons]
      omega

/-- Claim C4 (amended): the vertex count of `Sculpture::to_mesh` is the sum
of the surfaces' individual contributions, where a Spanned surface
contributes `len(left) + len(right)`, a Gable exactly 6, a Flat exactly the
vertex count returned by the fill engine, and a Roof
`len(left) + len(right) + len(ridge)` — the spine's offset lines, not its
`boundary` loop, which also contains the connector points. -/
theorem vertex_count_conservation (ops : PathOps) (s : Sculpture)
    (hs : ∀ surf ∈ s, surf.pathsOk) :
    (Sculpture.to_mesh ops s).vertices.length
      = (s.map (surface_vertex_count ops)).sum := by
  rw [Sculpture.to_mesh, to_mesh_vertices_fold]
  simp [Mesh.empty]

/-- Claim C4 counterexample: for a roof on the concrete `spineEx` (2-point
offset lines, 5-point boundary loop, 2-point ridge), `to_mesh` produces 6
vertices while the claimed per-surface sum (roof: `len(boundary points) +
len(ridge points)`) is 7. -/
theorem roof_vertex_count_not_boundary :
    (Sculpture.to_mesh opsZero [Surface.Roof roofEx]).vertices.length = 6
    ∧ ([Surface.Roof roofEx].map (spec_surface_vertex_count opsZero)).sum = 7
    ∧ ¬ ((Sculpture.to_mesh opsZero [Surface.Roof roofEx]).vertices.length
          = ([Surface.Roof roofEx].map (spec_surface_vertex_count opsZero)).sum) := by
  refine ⟨rfl, rfl, ?_⟩
  decide

/-- Witness for C4's amended theorem on a one-spanned-surface sculpture. -/
theorem vertex_count_conservation_witness :
    (Sculpture.to_mesh opsZero [Surface.Spanned spanEx]).vertices.length
      = ([Surface.Spanned spanEx].map (surface_vertex_count opsZero)).sum :=
  vertex_count_conservation opsZero [Surface.Spanned spanEx] (by
    intro surf h
    rw [List.mem_singleton] at h
    subst h
    exact ⟨by norm_num [spanEx], by norm_num [spanEx]⟩)

/-! ### Claim C6: gable fixed shape -/

/-- Claim C6: for any `GableSurface` (with non-empty offset lines, as every
real `LinePath` is), `to_mesh` on a sculpture containing only that surface
returns exactly 6 vertices and the two triangles `[0,1,2,3,4,5]`, whatever
the point counts of the spine's paths. -/
theorem gable_fixed_shape (ops : PathOps) (g : GableSurface)
    (hl : 1 ≤ g.spine.left.path.points.length)
    (hr : 1 ≤ g.spine.right.path.points.length) :
    (Sculpture.to_mesh ops [Surface.Gable g]).vertices.length = 6
    ∧ (Sculpture.to_mesh ops [Surface.Gable g]).indices = [0, 1, 2, 3, 4, 5] := by
  constructor
  · rfl
  · rw [to_mesh_singleton_indices]
    · rfl
    · intro j hj
      have h6 : (surfaceMesh ops (Surface.Gable g)).indices = [0, 1, 2, 3, 4, 5] := rfl
      rw [h6] at hj
      simp only [List.mem_cons, List.not_mem_nil, or_false] at hj
      omega

/-- Witness for C6 on the concrete gable `gableEx`. -/
theorem gable_fixed_shape_witness :
    (Sculpture.to_mesh opsZero [Surface.Gable gableEx]).vertices.length = 6
    ∧ (Sculpture.to_mesh opsZero [Surface.Gable gableEx]).indices = [0, 1, 2, 3, 4, 5] :=
  gable_fixed_shape opsZero gableEx
    (by norm_num [gableEx, spineEx]) (by norm_num [gableEx, spineEx])

/-! ### Claim C10: u16 index shift in mesh concatenation -/

/-- Claim C10: in both `Mesh` addition and `+=`, the right operand's
indices are shifted by the left operand's vertex count cast to `u16`
(i.e. taken mod `2^16`) with `u16` addition; consequently, once the left
operand holds `2^16` or more vertices the shifted index stays below
`2^16 ≤ vertex count` — it wraps around and refers to a pre-existing vertex
position, never to one of the newly appended vertices (which live at
positions `≥ vertex count of the left operand`). -/
theorem mesh_index_shift_mod_u16 (m rhs : Mesh) :
    (Mesh.add m rhs).indices
        = m.indices ++ rhs.indices.map (fun i => (i % 65536 + m.vertices.length % 65536) % 65536)
    ∧ (Mesh.addAssign m rhs).indices
        = m.indices ++ rhs.indices.map (fun i => (i % 65536 + m.vertices.length % 65536) % 65536)
    ∧ (65536 ≤ m.vertices.length →
        ∀ i ∈ rhs.indices,
          (i % 65536 + m.vertices.length % 65536) % 65536 < 65536
            ∧ (i % 65536 + m.vertices.length % 65536) % 65536 < m.vertices.length) := by
  refine ⟨rfl, rfl, fun hlen i _ => ?_⟩
  constructor <;> omega

/-- Witness for C10 at a mesh with exactly `2^16` vertices: the single
index 0 of the right operand is shifted to 0 — an old vertex — although the
appended vertex sits at position `2^16`. -/
theorem mesh_index_shift_mod_u16_witness :
    (Mesh.addAssign meshBig meshOne).indices = [0]
    ∧ (0 % 65536 + meshBig.vertices.length % 65536) % 65536 < meshBig.vertices.length := by
  have h := mesh_index_shift_mod_u16 meshBig meshOne
  have hv : meshBig.vertices.length = 65536 := by
    show (List.replicate 65536 (⟨(0, 0, 0)⟩ : Vertex)).length = 65536
    rw [List.length_replicate]
  constructor
  · rw [h.2.1, hv]
    simp only [show meshBig.indices = [] from rfl, show meshOne.indices = [0] from rfl]
    norm_num
  · exact (h.2.2 (by rw [hv]) 0 (by norm_num [meshOne])).2

/-! ### Claim C9: subdivide partitions proportionally and drops failures -/

theorem list_filterMap_congr {α β : Type} {l : List α} {f g : α → Option β}
    (h : ∀ a ∈ l, f a = g a) : l.filterMap f = l.filterMap g := by
  induction l with
  | nil => rfl
  | cons a t ih =>
      rw [List.filterMap_cons, List.filterMap_cons, h a (by simp),
        ih (fun x hx => h x (by simp [hx]))]

theorem subdivide_foldl (ops : PathOps) (l : SculptLine) (W L : ℚ) (ws : List ℚ) :
    ∀ (res : List SculptLine) (s : ℚ),
      (ws.foldl (subdivideStep ops l W L) (res, s)).1
        = res ++ (List.range ws.length).filterMap (fun i =>
            (ops.subsection l.path (s + L * ((ws.take i).sum / W))
              (s + L * ((ws.take (i + 1)).sum / W))).map
              (fun path => SculptLine.new path l.z)) := by
  induction ws with
  | nil =>
      intro res s
      simp
  | cons w t ih =>
      intro res s
      have earg : ∀ q : ℚ, s + L * ((w + q) / W) = s + L * (w / W) + L * (q / W) :=
        fun q => by ring
      rw [List.foldl_cons]
      cases h : ops.subsection l.path s (s + L * (w / W)) with
      | none =>
          rw [show subdivideStep ops l W L (res, s) w = (res, s + L * (w / W)) from by
            simp only [subdivideStep, h]]
          rw [ih res (s + L * (w / W))]
          congr 1
          simp only [List.length_cons, List.range_succ_eq_map, List.filterMap_cons,
            List.filterMap_map, Function.comp, List.take_zero, List.sum_nil, zero_div,
            mul_zero, add_zero, List.take_succ_cons, List.sum_cons, h, Option.map_none]
          apply list_filterMap_congr
          intro i _
          simp only [Function.comp_apply, Nat.succ_eq_add_one, List.take_succ_cons,
            List.sum_cons]
          rw [earg ((t.take i).sum), earg ((t.take (i + 1)).sum)]
      | some path =>
          rw [show subdivideStep ops l W L (res, s) w
              = (res ++ [SculptLine.new path l.z], s + L * (w / W)) from by
            simp only [subdivideStep, h]]
          rw [ih (res ++ [SculptLine.new path l.z]) (s + L * (w / W))]
          simp only [List.length_cons, List.range_succ_eq_map, List.filterMap_cons,
            List.filterMap_map, Function.comp, List.take_zero, List.sum_nil, zero_div,
            mul_zero, add_zero, List.take_succ_cons, List.sum_cons, h, Option.map_some,
            List.append_assoc, List.singleton_append]
          congr 1
          congr 1
          apply list_filterMap_congr
          intro i _
          simp only [Function.comp_apply, Nat.succ_eq_add_one, List.take_succ_cons,
            List.sum_cons]
          rw [earg ((t.take i).sum), earg ((t.take (i + 1)).sum)]

/-- Claim C9: for every line and every non-empty weight list with nonzero
sum, `subdivide` is total (it is a plain list-valued function): the `i`-th
attempted sub-line spans the interval from `subdivideStart i` to
`subdivideStart (i+1)` (each interval starting where the previous one
ends), exactly the attempts whose `subsection` fails are dropped (the
`filterMap`), every kept sub-line keeps the original elevation `z`, and
interval `i` has length `length * weight_i / Σ weights`. -/
theorem subdivide_partition (ops : PathOps) (l : SculptLine) (weights : List N)
    (h1 : weights ≠ []) (h2 : weights.sum ≠ 0) :
    SculptLine.subdivide ops l weights
      = (List.range weights.length).filterMap (fun i =>
          (ops.subsection l.path (subdivideStart ops l weights i)
            (subdivideStart ops l weights (i + 1))).map
            (fun path => SculptLine.new path l.z))
    ∧ ∀ i, i < weights.length →
        subdivideStart ops l weights (i + 1) - subdivideStart ops l weights i
          = ops.length l.path * (weights.getD i 0 / weights.sum) := by
  constructor
  · show (weights.foldl (subdivideStep ops l weights.sum (ops.length l.path))
        (([] : List SculptLine), (0 : N))).1 = _
    rw [subdivide_foldl]
    simp only [List.nil_append, zero_add, subdivideStart]
  · intro i hi
    have hs := List.sum_take_succ weights i hi
    rw [subdivideStart, subdivideStart, hs, List.getD_eq_getElem weights 0 hi]
    ring

/-- Witness for C9 with concrete collaborators (`subsection` always
succeeds with the whole path) on the weight list `[1, 1]`. -/
theorem subdivide_partition_witness :
    ([(1 : ℚ), 1] ≠ []) ∧ ([(1 : ℚ), 1].sum ≠ 0)
    ∧ SculptLine.subdivide opsTiny ⟨⟨[(0, 0), (10, 0)]⟩, 0⟩ [1, 1]
        = (List.range 2).filterMap (fun i =>
            (opsTiny.subsection (⟨[(0, 0), (10, 0)]⟩ : LinePath)
              (subdivideStart opsTiny ⟨⟨[(0, 0), (10, 0)]⟩, 0⟩ [1, 1] i)
              (subdivideStart opsTiny ⟨⟨[(0, 0), (10, 0)]⟩, 0⟩ [1, 1] (i + 1))).map
              (fun path => SculptLine.new path 0)) :=
  ⟨by decide, by norm_num,
   (subdivide_partition opsTiny ⟨⟨[(0, 0), (10, 0)]⟩, 0⟩ [1, 1]
      (by decide) (by norm_num)).1⟩

/-! ### Claim C8: spine extrusion -/

theorem skeletonSpine_new_center_width (ops : PathOps) (c : SculptLine) (w : N)
    (sp : SkeletonSpine) (h : SkeletonSpine.new ops c w = some sp) :
    sp.center = c ∧ sp.width = w := by
  rw [SkeletonSpine.new] at h
  simp only [Option.bind_eq_bind, Option.bind_eq_some, Option.pure_def,
    Option.some.injEq] at h
  obtain ⟨l1, h1, l2, h2, l3, h3, l4, h4, l5, h5, l6, h6, l7, h7, hsp⟩ := h
  subst hsp
  exact ⟨rfl, rfl⟩

/-- Claim C8: whenever `SkeletonSpine::extrude(up, widen_by, extend_by)`
returns `Some`, the new spine's width is the old width plus `widen_by` and
its center sits at elevation old `z + up`; when `extend_by ≠ 0` the new
center path is the old center path with its start pulled back by
`extend_by` along the start tangent and its end pushed out by `extend_by`
along the end tangent (via `with_new_start_and_end`); and in the identity
case `extend_by = 0 ∧ up = 0` the new spine's center is the very same line
as the old center (the `Rc` clone of the source, i.e. equality here). -/
theorem spine_extrude_shape (ops : PathOps) (s : SkeletonSpine)
    (up widen_by extend_by : N) (surf : SpannedSurface) (sp : SkeletonSpine)
    (h : SkeletonSpine.extrude ops s up widen_by extend_by = some (surf, sp)) :
    sp.width = s.width + widen_by
    ∧ sp.center.z = s.center.z + up
    ∧ (extend_by ≠ 0 →
        ops.with_new_start_and_end s.center.path
          (ops.start s.center.path - extend_by • ops.start_direction s.center.path)
          (ops.endPoint s.center.path + extend_by • ops.end_direction s.center.path)
          = some sp.center.path)
    ∧ (extend_by = 0 → up = 0 → sp.center = s.center) := by
  rw [SkeletonSpine.extrude] at h
  by_cases he : extend_by = 0
  · rw [if_pos he] at h
    by_cases hu : up = 0
    · rw [if_pos hu] at h
      simp only [Option.bind_eq_bind, Option.pure_def, Option.some_bind,
        Option.bind_eq_some, Option.some.injEq, Prod.mk.injEq] at h
      obtain ⟨ns, hns, _, hsp⟩ := h
      subst hsp
      obtain ⟨hc, hw⟩ := skeletonSpine_new_center_width ops _ _ _ hns
      refine ⟨hw, ?_, fun hne => absurd he hne, fun _ _ => hc⟩
      rw [hc, hu, add_zero]
    · rw [if_neg hu] at h
      simp only [Option.bind_eq_bind, Option.pure_def, Option.some_bind,
        Option.bind_eq_some, Option.some.injEq, Prod.mk.injEq] at h
      obtain ⟨ns, hns, _, hsp⟩ := h
      subst hsp
      obtain ⟨hc, hw⟩ := skeletonSpine_new_center_width ops _ _ _ hns
      refine ⟨hw, ?_, fun hne => absurd he hne, fun _ hu0 => absurd hu0 hu⟩
      rw [hc]
      rfl
  · rw [if_neg he] at h
    simp only [Option.bind_eq_bind, Option.pure_def, Option.bind_eq_some,
      Option.some_bind, Option.some.injEq, Prod.mk.injEq] at h
    obtain ⟨q, hq, ns, hns, _, hsp⟩ := h
    subst hsp
    obtain ⟨hc, hw⟩ := skeletonSpine_new_center_width ops _ _ _ hns
    refine ⟨hw, ?_, fun _ => ?_, fun h0 _ => absurd h0 he⟩
    · rw [hc]
      rfl
    · rw [hc, hq]
      rfl

/-- Witness for C8 at `up = 1, widen_by = 2, extend_by = 0` on the concrete
`spineTiny` with the always-succeeding `opsTiny` collaborators. -/
theorem spine_extrude_shape_witness :
    spineTinyUp.width = spineTiny.width + 2
    ∧ spineTinyUp.center.z = spineTiny.center.z + 1
    ∧ ((0 : ℚ) ≠ 0 →
        opsTiny.with_new_start_and_end spineTiny.center.path
          (opsTiny.start spineTiny.center.path
            - (0 : ℚ) • opsTiny.start_direction spineTiny.center.path)
          (opsTiny.endPoint spineTiny.center.path
            + (0 : ℚ) • opsTiny.end_direction spineTiny.center.path)
          = some spineTinyUp.center.path)
    ∧ ((0 : ℚ) = 0 → (1 : ℚ) = 0 → spineTinyUp.center = spineTiny.center) :=
  spine_extrude_shape opsTiny spineTiny 1 2 0
    (SpannedSurface.new spineTiny.boundary spineTinyUp.boundary) spineTinyUp
    (by norm_num [SkeletonSpine.extrude, SkeletonSpine.new, opsTiny, spineTiny,
      spineTinyUp, SculptLine.new, SpannedSurface.new])

/-! ### Claim C1: index safety of `Sculpture::to_mesh` -/

theorem strip_fwd_lt (ls ll rs rl n : ℕ) (hrl : 1 ≤ rl)
    (h1 : ls + ll ≤ n) (h2 : rs + rl ≤ n) :
    ∀ j ∈ strip_indices ls ll rs rl false, j < n := by
  intro j hj
  rw [strip_indices, if_neg (by simp), List.mem_flatMap] at hj
  obtain ⟨i, hi, hj⟩ := hj
  rw [List.mem_range] at hi
  simp only [List.mem_cons, List.not_mem_nil, or_false] at hj
  rcases hj with h | h | h | h | h | h <;> omega

theorem addAssign_index_safety (m x : Mesh)
    (hm : ∀ i ∈ m.indices, i < m.vertices.length)
    (hx : ∀ i ∈ x.indices, i < x.vertices.length) :
    ∀ i ∈ (m.addAssign x).indices, i < (m.addAssign x).vertices.length := by
  intro i hi
  simp only [Mesh.addAssign, List.mem_append, List.mem_map, List.length_append] at hi ⊢
  rcases hi with hi | ⟨j, hj, rfl⟩
  · exact lt_of_lt_of_le (hm i hi) (Nat.le_add_right _ _)
  · have := hx j hj
    omega

theorem addAssign_indices_length (m x : Mesh) :
    (m.addAssign x).indices.length = m.indices.length + x.indices.length := by
  simp [Mesh.addAssign]

theorem runFill_indices_dvd (events : List FillEvent) :
    3 ∣ (runFill events).indices.length := by
  rw [runFill]
  suffices h : ∀ m : Mesh, 3 ∣ m.indices.length →
      3 ∣ (events.foldl applyFillEvent m).indices.length from
    h Mesh.empty (by simp [Mesh.empty])
  induction events with
  | nil => exact fun m hm => hm
  | cons e t ih =>
      intro m hm
      rw [List.foldl_cons]
      apply ih
      cases e with
      | addVertex x y => simpa [applyFillEvent] using hm
      | addTriangle a b c =>
          simp only [applyFillEvent, List.length_append, List.length_cons,
            List.length_nil]
          omega

theorem ridgePoints_len_pos (ops : PathOps) (r : RoofSurface) :
    1 ≤ (ridgePoints ops r).length := by
  rw [ridgePoints]
  simp

theorem surfaceMesh_index_safety (ops : PathOps)
    (hfill : ∀ p, ∀ i ∈ (runFill (ops.fill p)).indices,
        i < (runFill (ops.fill p)).vertices.length)
    (surf : Surface) (hok : surf.pathsOk) :
    (∀ i ∈ (surfaceMesh ops surf).indices, i < (surfaceMesh ops surf).vertices.length)
    ∧ 3 ∣ (surfaceMesh ops surf).indices.length := by
  cases surf with
  | Spanned s =>
      obtain ⟨hl, hr⟩ := hok
      have hidx : (surfaceMesh ops (Surface.Spanned s)).indices
          = strip_indices 0 s.left_line.path.points.length
              s.left_line.path.points.length s.right_line.path.points.length false := rfl
      have hv : (surfaceMesh ops (Surface.Spanned s)).vertices.length
          = s.left_line.path.points.length + s.right_line.path.points.length := by
        simp [surfaceMesh, Mesh.new]
      constructor
      · intro i hi
        rw [hidx] at hi
        rw [hv]
        exact strip_fwd_lt _ _ _ _ _ hr (by omega) (by omega) i hi
      · rw [hidx, strip_indices_length]
        omega
  | Flat f =>
      have hidx : (surfaceMesh ops (Surface.Flat f)).indices
          = (runFill (ops.fill f.boundary.path)).indices := rfl
      have hv : (surfaceMesh ops (Surface.Flat f)).vertices.length
          = (runFill (ops.fill f.boundary.path)).vertices.length := by
        simp [surfaceMesh]
      constructor
      · intro i hi
        rw [hidx] at hi
        rw [hv]
        exact hfill _ i hi
      · rw [hidx]
        exact runFill_indices_dvd _
  | Roof r =>
      obtain ⟨hl, hr, hc⟩ := hok
      have hk := ridgePoints_len_pos ops r
      have hidx : (surfaceMesh ops (Surface.Roof r)).indices
          = strip_indices 0 r.spine.left.path.points.length
              (r.spine.left.path.points.length + r.spine.right.path.points.length)
              (ridgePoints ops r).length false
            ++ strip_indices r.spine.left.path.points.length
              r.spine.right.path.points.length
              (r.spine.left.path.points.length + r.spine.right.path.points.length)
              (ridgePoints ops r).length false := rfl
      have hv : (surfaceMesh ops (Surface.Roof r)).vertices.length
          = r.spine.left.path.points.length + r.spine.right.path.points.length
            + (ridgePoints ops r).length := by
        simp [surfaceMesh, Mesh.new]
        omega
      constructor
      · intro i hi
        rw [hidx, List.mem_append] at hi
        rw [hv]
        rcases hi with h | h
        · exact strip_fwd_lt _ _ _ _ _ hk (by omega) (by omega) i h
        · exact strip_fwd_lt _ _ _ _ _ hk (by omega) (by omega) i h
      · rw [hidx, List.length_append, strip_indices_length, strip_indices_length]
        omega
  | Gable g =>
      have hidx : (surfaceMesh ops (Surface.Gable g)).indices = [0, 1, 2, 3, 4, 5] := rfl
      have hv : (surfaceMesh ops (Surface.Gable g)).vertices.length = 6 := rfl
      constructor
      · intro i hi
        rw [hidx] at hi
        rw [hv]
        simp only [List.mem_cons, List.not_mem_nil, or_false] at hi
        omega
      · exact ⟨2, rfl⟩

theorem to_mesh_fold_safety (ops : PathOps)
    (hfill : ∀ p, ∀ i ∈ (runFill (ops.fill p)).indices,
        i < (runFill (ops.fill p)).vertices.length) :
    ∀ (l : List Surface), (∀ surf ∈ l, surf.pathsOk) → ∀ m : Mesh,
      (∀ i ∈ m.indices, i < m.vertices.length) → 3 ∣ m.indices.length →
      (∀ i ∈ (l.foldl (fun mesh surface => mesh.addAssign (surfaceMesh ops surface)) m).indices,
          i < (l.foldl (fun mesh surface => mesh.addAssign (surfaceMesh ops surface)) m).vertices.length)
        ∧ 3 ∣ (l.foldl (fun mesh surface => mesh.addAssign (surfaceMesh ops surface)) m).indices.length := by
  intro l
  induction l with
  | nil => exact fun _ m hm hd => ⟨hm, hd⟩
  | cons a t ih =>
      intro hok m hm hd
      rw [List.foldl_cons]
      obtain ⟨hsi, hsd⟩ := surfaceMesh_index_safety ops hfill a (hok a (by simp))
      exact ih (fun s hs => hok s (by simp [hs])) _
        (addAssign_index_safety m _ hm hsi)
        (by rw [addAssign_indices_length]; omega)

/-- Claim C1: for every sculpture built from any combination of Spanned,
Flat, Roof and Gable surfaces — with every referenced line path non-empty
(and roof center paths with the ≥ 2 points every real `LinePath` has), and
assuming the external fill engine emits only in-range indices — every
index in the mesh returned by `Sculpture::to_mesh` is strictly below the
mesh's vertex count, and the length of the index list is a multiple of 3. -/
theorem sculpture_index_safety (ops : PathOps)
    (hfill : ∀ p, ∀ i ∈ (runFill (ops.fill p)).indices,
        i < (runFill (ops.fill p)).vertices.length)
    (s : Sculpture) (hs : ∀ surf ∈ s, surf.pathsOk) :
    (∀ i ∈ (Sculpture.to_mesh ops s).indices,
        i < (Sculpture.to_mesh ops s).vertices.length)
    ∧ 3 ∣ (Sculpture.to_mesh ops s).indices.length :=
  to_mesh_fold_safety ops hfill s hs Mesh.empty
    (by simp [Mesh.empty]) (by simp [Mesh.empty])

/-- Witness for C1 on a one-spanned-surface sculpture with the
nothing-emitting fill engine of `opsZero`. -/
theorem sculpture_index_safety_witness :
    3 ∣ (Sculpture.to_mesh opsZero [Surface.Spanned spanEx]).indices.length :=
  (sculpture_index_safety opsZero
    (fun p => by intro i hi; simp [opsZero, runFill, Mesh.empty] at hi)
    [Surface.Spanned spanEx]
    (fun surf h => by
      rw [List.mem_singleton] at h
      subst h
      exact ⟨by norm_num [spanEx], by norm_num [spanEx]⟩)).2

end Michelangelo
